import Mathlib

/-!
Verification of the in-memory virtual file system core of the Web-Dev sandbox:
the snapshot history (undo/redo), the change-set calculator, the path resolver,
the preview stylesheet inliner, and the archive pack/unpack round trip.

The definitions below are a shallow embedding of the TypeScript source
(`src/store.ts` and the orchestrator panel component).  JavaScript strings are
modelled as Lean `String`, JavaScript objects mapping paths to values as
association lists with unique keys (lookup finds the first matching key), and
the `null` "not yet fetched" placeholder stored in the file table as a
distinguished constructor of `FileContent`.
-/

set_option autoImplicit false

namespace Sandbox

/-- A value stored in the virtual file table: either real text content, or the
JavaScript `null` placeholder meaning "known to exist remotely but not yet
fetched" (written by `handleLoadRepo`, which sets `fs['/'+item.path] = null`). -/
inductive FileContent where
  | text (s : String)
  | placeholder
  deriving DecidableEq, Repr

/-- Model of `FileSystemState` from `src/types.ts`: a JavaScript object mapping absolute
path strings to contents, modelled as an association list. -/
abbrev FileSystemState := List (String × FileContent)

/-- JavaScript object property read `obj[key]`: `none` models `undefined`. -/
def jsGet {α : Type} : List (String × α) → String → Option α
  | [], _ => none
  | (k, v) :: rest, p => if k = p then some v else jsGet rest p

/-- JavaScript object spread `{...a, ...b}`: keys of `a` in their original
order (values overridden by `b` where present), followed by the keys of `b`
that are not in `a`. -/
def objectAssign {α : Type} (a b : List (String × α)) : List (String × α) :=
  (a.map fun kv => (kv.1, (jsGet b kv.1).getD kv.2)) ++
    b.filter fun kv => (jsGet a kv.1).isNone

/-- JavaScript `s.startsWith(pre)`. -/
def jsStartsWith (s pre : String) : Bool := pre.data.isPrefixOf s.data

/-- JavaScript `s.endsWith(suffix)`. -/
def jsEndsWith (s suf : String) : Bool := suf.data.isSuffixOf s.data

/-- Helper for `jsIncludes`: does `sub` occur as a prefix of some suffix? -/
def includesAux (sub : List Char) : List Char → Bool
  | [] => sub.isEmpty
  | c :: rest => sub.isPrefixOf (c :: rest) || includesAux sub rest

/-- JavaScript `s.includes(sub)`. -/
def jsIncludes (s sub : String) : Bool := includesAux sub.data s.data

/-- Helper for `jsLastIndexOf`: last index of a character in a character list,
`-1` when absent. -/
def lastIndexOfAux (t : Char) : List Char → Int
  | [] => -1
  | c :: rest =>
    let r := lastIndexOfAux t rest
    if r ≥ 0 then r + 1 else if c = t then 0 else -1

/-- JavaScript `s.lastIndexOf(t)` for a single character, `-1` when absent. -/
def jsLastIndexOf (s : String) (t : Char) : Int := lastIndexOfAux t s.data

/-- JavaScript `s.substring(0, n)` (the only form the source uses). -/
def jsSubstringTo (s : String) (n : Nat) : String := ⟨s.data.take n⟩

/-- JavaScript `s.slice(1)` / `s.substring(1)`: drop the first character. -/
def jsDropFirst (s : String) : String := ⟨s.data.drop 1⟩

/-! ## The store (`src/store.ts`)

Only the fields that the file-system history operations read or write are
modelled; the remaining store fields (chat history, GitHub state, UI layout)
are untouched by `setFileSystem`/`undo`/`redo` and are irrelevant to the
claims. -/

/-- The undo/redo-relevant part of `StoreState` (`src/store.ts`).
`currentHistoryIndex` is a JavaScript number initialized to `-1`, hence `Int`. -/
structure StoreState where
  fileSystem : FileSystemState
  fileSystemHistory : List FileSystemState
  currentHistoryIndex : Int
  deriving DecidableEq, Repr

/-- Model of `setFileSystem(fs, snapshot)` from `src/store.ts` lines 163-177.
With `snapshot = true` it truncates the history after the cursor
(`slice(0, currentHistoryIndex + 1)`), appends the new table and moves the
cursor to the new last index; with `snapshot = false` it only replaces the
live table. -/
def setFileSystem (state : StoreState) (fs : FileSystemState) (snapshot : Bool) : StoreState :=
  if snapshot then
    let newHistory := state.fileSystemHistory.take (state.currentHistoryIndex + 1).toNat ++ [fs]
    { state with
      fileSystem := fs
      fileSystemHistory := newHistory
      currentHistoryIndex := (newHistory.length : Int) - 1 }
  else
    { state with fileSystem := fs }

/-- Model of `undo()` from `src/store.ts` lines 194-205.  The array read
`fileSystemHistory[newIndex]` is in bounds whenever the store invariant
`0 ≤ currentHistoryIndex < fileSystemHistory.length` holds; `getD _ []` is
the total Lean rendering of that read. -/
def undo (state : StoreState) : StoreState :=
  if state.currentHistoryIndex > 0 then
    let newIndex := state.currentHistoryIndex - 1
    { state with
      fileSystem := state.fileSystemHistory.getD newIndex.toNat []
      currentHistoryIndex := newIndex }
  else
    state

/-- Model of `redo()` from `src/store.ts` lines 206-217. -/
def redo (state : StoreState) : StoreState :=
  if state.currentHistoryIndex < (state.fileSystemHistory.length : Int) - 1 then
    let newIndex := state.currentHistoryIndex + 1
    { state with
      fileSystem := state.fileSystemHistory.getD newIndex.toNat []
      currentHistoryIndex := newIndex }
  else
    state

/-- Model of `canUndo()` from `src/store.ts` line 224. -/
def canUndo (state : StoreState) : Bool := state.currentHistoryIndex > 0

/-- Model of `canRedo()` from `src/store.ts` line 225. -/
def canRedo (state : StoreState) : Bool :=
  state.currentHistoryIndex < (state.fileSystemHistory.length : Int) - 1

/-- The operation `undo()` repeated `n` times. -/
def undoTimes : Nat → StoreState → StoreState
  | 0, s => s
  | n + 1, s => undoTimes n (undo s)

/-- The operation `redo()` repeated `n` times. -/
def redoTimes : Nat → StoreState → StoreState
  | 0, s => s
  | n + 1, s => redoTimes n (redo s)

/-- A sequence of `setFileSystem(fs, true)` calls (snapshot-recording writes). -/
def applyWrites (s : StoreState) (writes : List FileSystemState) : StoreState :=
  writes.foldl (fun st fs => setFileSystem st fs true) s

/-- A sequence of `setFileSystem(fs, false)` calls (unsnapshotted writes, as
issued by the code editor `onChange` handler on every keystroke). -/
def applyUnsnapshotted (s : StoreState) (writes : List FileSystemState) : StoreState :=
  writes.foldl (fun st fs => setFileSystem st fs false) s

/-- The store invariant established by `loadStateFromDB` (history `[loadedFs]`,
cursor `0`, live table `loadedFs`) and preserved by every snapshot write: the
cursor sits on the last snapshot and the live table equals that snapshot. -/
def StoreState.WF (s : StoreState) : Prop :=
  0 ≤ s.currentHistoryIndex ∧
  s.currentHistoryIndex = (s.fileSystemHistory.length : Int) - 1 ∧
  s.fileSystem = s.fileSystemHistory.getD s.currentHistoryIndex.toNat []

/-! ## The change-set calculator (`src/store.ts` lines 264-290) -/

/-- Model of `FileChange.status` from `src/types.ts`. -/
inductive FileStatus where
  | modified
  | added
  | deleted
  deriving DecidableEq, Repr

/-- Model of `FileChange` from `src/types.ts`. -/
structure FileChange where
  path : String
  status : FileStatus
  deriving DecidableEq, Repr

/-- Model of `allPaths = new Set([...Object.keys(initial), ...Object.keys(fs)])`:
keys of the baseline, then keys of the current table not in the baseline, the
`Set` rendered by a dedup.  JavaScript object keys are unique and the second
key list is filtered against the first, so the concatenation is already
duplicate-free and the dedup only mirrors the `Set` construction. -/
def allPaths (initialGithubFileSystem fileSystem : FileSystemState) : List String :=
  let ik := initialGithubFileSystem.map Prod.fst
  let fk := fileSystem.map Prod.fst
  (ik ++ fk.filter fun p => ¬ p ∈ ik).dedup

/-- The body of the `allPaths.forEach` loop in the changed-files subscriber
(`src/store.ts` lines 274-285): one optional change record per path. -/
def changeAt (fileSystem initialGithubFileSystem : FileSystemState) (path : String) :
    Option FileChange :=
  let initialContent := jsGet initialGithubFileSystem path
  let currentContent := jsGet fileSystem path
  if initialContent = none ∧ currentContent ≠ none then
    some ⟨path, FileStatus.added⟩
  else if initialContent ≠ none ∧ currentContent = none then
    some ⟨path, FileStatus.deleted⟩
  else if initialContent ≠ currentContent then
    some ⟨path, FileStatus.modified⟩
  else
    none

/-- The changed-files calculator (`src/store.ts` lines 264-290): diff the
current table against the GitHub baseline over the union of their key sets,
then drop housekeeping `/.placeholder` records. -/
def computeChangedFiles (fileSystem initialGithubFileSystem : FileSystemState) :
    List FileChange :=
  let changes := (allPaths initialGithubFileSystem fileSystem).filterMap
    (changeAt fileSystem initialGithubFileSystem)
  changes.filter fun c => ¬ jsEndsWith c.path "/.placeholder"

/-! ## The path resolver (`src/unnamed/part_004` lines 23-28)

`resolvePath` delegates to the browser URL class:
`new URL(relative, 'file://' + baseDir).pathname`.  The URL class is a
platform builtin, so its path resolution is modelled here from the WHATWG URL
standard for the references the component feeds it: same-origin relative path
references (the caller filters out `http...` references first). -/

/-- Split a character list on `'/'` into segments. -/
def splitOnSlash : List Char → List String
  | [] => [""]
  | '/' :: rest => "" :: splitOnSlash rest
  | c :: rest =>
    match splitOnSlash rest with
    | s :: ss => (⟨c :: s.data⟩ : String) :: ss
    | [] => [(⟨[c]⟩ : String)]

/-- WHATWG URL dot-segment processing: walk the reference's segments over the
output stack; `".."` shortens the path (never below the root), `"."` is
skipped, anything else is appended. -/
def processSegs : List String → List String → List String
  | out, [] => out
  | out, ".." :: rest => processSegs out.dropLast rest
  | out, "." :: rest => processSegs out rest
  | out, seg :: rest => processSegs (out ++ [seg]) rest

/-- Models `new URL(relative, 'file://' + baseDir).pathname` (a browser
builtin) for a relative path reference: start from the base path's segments
with the last one removed (or from nothing if `relative` is path-absolute),
process the reference's segments, and re-serialize with a leading slash; a
reference ending in `"."`/`".."` contributes a trailing empty segment. -/
def urlPathname (baseDir relative : String) : String :=
  let relSegs := splitOnSlash relative.data
  let segs :=
    if jsStartsWith relative "/" then
      processSegs [] (relSegs.drop 1)
    else
      let baseSegs := splitOnSlash baseDir.data
      processSegs (baseSegs.drop 1).dropLast relSegs
  let segs :=
    if relSegs.getLast? = some "." ∨ relSegs.getLast? = some ".." then segs ++ [""] else segs
  "/" ++ String.intercalate "/" segs

/-- Model of `resolvePath` from `src/unnamed/part_004` lines 23-28: normalize the base
to a directory (`substring(0, lastIndexOf('/') + 1)` when it does not end in
a slash), resolve through the URL class, and force a leading slash. -/
def resolvePath (base relative : String) : String :=
  let baseDir :=
    if jsEndsWith base "/" then base
    else jsSubstringTo base (jsLastIndexOf base '/' + 1).toNat
  let path := urlPathname baseDir relative
  if jsStartsWith path "/" then path else "/" ++ path

/-! ## The preview resolver, index.html branch (`src/unnamed/part_004` lines 165-199)

The branch parses `index.html` with the browser's `DOMParser`, inlines every
same-origin stylesheet link and script, and serializes the document back with
`outerHTML`.  The DOM is a browser builtin; it is modelled by the `HtmlNode`
tree below, with the parser passed in as a parameter. -/

/-- A DOM node: an element with a tag, attributes and children, or a text
node. -/
inductive HtmlNode where
  | element (tag : String) (attrs : List (String × String)) (children : List HtmlNode)
  | text (s : String)
  deriving Repr

/-- Model of `link.getAttribute(name)` (`none` models `null`). -/
def getAttr (attrs : List (String × String)) (name : String) : Option String :=
  jsGet attrs name

/-- The guarded lookup inside the stylesheet loop (`part_004` lines 169-173):
if the link has a non-empty `href` not starting with `http`, resolve it
against the document path and return the table entry when it is real text. -/
def linkInlineContent (fileSystem : FileSystemState) (htmlPath : String)
    (attrs : List (String × String)) : Option String :=
  match getAttr attrs "href" with
  | none => none
  | some href =>
    if href = "" ∨ jsStartsWith href "http" = true then none
    else
      match jsGet fileSystem (resolvePath htmlPath href) with
      | some (FileContent.text css) => some css
      | _ => none

/-- The same guarded lookup for the script loop (`part_004` lines 183-187),
keyed on the `src` attribute. -/
def scriptInlineContent (fileSystem : FileSystemState) (htmlPath : String)
    (attrs : List (String × String)) : Option String :=
  match getAttr attrs "src" with
  | none => none
  | some src =>
    if src = "" ∨ jsStartsWith src "http" = true then none
    else
      match jsGet fileSystem (resolvePath htmlPath src) with
      | some (FileContent.text js) => some js
      | _ => none

/-- Does this node match `querySelectorAll('link[rel="stylesheet"]')`? -/
def isStylesheetLink : HtmlNode → Bool
  | HtmlNode.element tag attrs _ => tag = "link" ∧ getAttr attrs "rel" = some "stylesheet"
  | HtmlNode.text _ => false

/-- Is this a stylesheet link that the loop body actually inlines (href
present, same-origin, resolved path present as real text)? -/
def isInlinedLink (fileSystem : FileSystemState) (htmlPath : String) : HtmlNode → Bool
  | HtmlNode.element tag attrs _ =>
    tag = "link" ∧ getAttr attrs "rel" = some "stylesheet" ∧
      (linkInlineContent fileSystem htmlPath attrs).isSome
  | HtmlNode.text _ => false

mutual

/-- Model of `querySelectorAll('link[rel="stylesheet"]')` in tree order: the attribute
lists of all matching elements. -/
def collectStylesheetLinks : HtmlNode → List (List (String × String))
  | HtmlNode.element tag attrs children =>
    (if tag = "link" ∧ getAttr attrs "rel" = some "stylesheet" then [attrs] else []) ++
      collectStylesheetLinksList children
  | HtmlNode.text _ => []

/-- Helper: `collectStylesheetLinks` over a child list. -/
def collectStylesheetLinksList : List HtmlNode → List (List (String × String))
  | [] => []
  | c :: cs => collectStylesheetLinks c ++ collectStylesheetLinksList cs

end

mutual

/-- Model of `link.remove()` for every inlined stylesheet link, over the whole tree. -/
def removeInlinedLinks (fileSystem : FileSystemState) (htmlPath : String) :
    HtmlNode → HtmlNode
  | HtmlNode.element tag attrs children =>
    HtmlNode.element tag attrs (removeInlinedLinksList fileSystem htmlPath children)
  | HtmlNode.text s => HtmlNode.text s

/-- Helper: `removeInlinedLinks` over a child list: inlined links are dropped, other
nodes are rewritten recursively. -/
def removeInlinedLinksList (fileSystem : FileSystemState) (htmlPath : String) :
    List HtmlNode → List HtmlNode
  | [] => []
  | c :: cs =>
    if isInlinedLink fileSystem htmlPath c then
      removeInlinedLinksList fileSystem htmlPath cs
    else
      removeInlinedLinks fileSystem htmlPath c :: removeInlinedLinksList fileSystem htmlPath cs

end

/-- Model of `doc.head.appendChild(style)` for each created style: append to the first
`head` child. -/
def appendToFirstHead (styles : List HtmlNode) : List HtmlNode → List HtmlNode
  | [] => []
  | HtmlNode.element "head" ha hc :: rest => HtmlNode.element "head" ha (hc ++ styles) :: rest
  | c :: rest => c :: appendToFirstHead styles rest

/-- The stylesheet-inlining pass (`part_004` lines 168-180): for each
stylesheet link whose resolved table entry is real text, append a `<style>`
element with that text to the document head and remove the link. -/
def inlineStylesheets (fileSystem : FileSystemState) (htmlPath : String)
    (doc : HtmlNode) : HtmlNode :=
  let styles := (collectStylesheetLinks doc).filterMap fun attrs =>
    (linkInlineContent fileSystem htmlPath attrs).map fun css =>
      HtmlNode.element "style" [] [HtmlNode.text css]
  match removeInlinedLinks fileSystem htmlPath doc with
  | HtmlNode.element tag attrs children =>
    HtmlNode.element tag attrs (appendToFirstHead styles children)
  | n => n

mutual

/-- The script-inlining pass (`part_004` lines 182-197): a same-origin script
whose resolved table entry is real text is replaced by an inline script with
the same attributes minus `src` and the file text as its content. -/
def inlineScripts (fileSystem : FileSystemState) (htmlPath : String) :
    HtmlNode → HtmlNode
  | HtmlNode.element tag attrs children =>
    if tag = "script" then
      match scriptInlineContent fileSystem htmlPath attrs with
      | some js =>
        HtmlNode.element "script" (attrs.filter fun a => ¬ a.1 = "src") [HtmlNode.text js]
      | none => HtmlNode.element tag attrs children
    else
      HtmlNode.element tag attrs (inlineScriptsList fileSystem htmlPath children)
  | HtmlNode.text s => HtmlNode.text s

/-- Helper: `inlineScripts` over a child list. -/
def inlineScriptsList (fileSystem : FileSystemState) (htmlPath : String) :
    List HtmlNode → List HtmlNode
  | [] => []
  | c :: cs =>
    inlineScripts fileSystem htmlPath c :: inlineScriptsList fileSystem htmlPath cs

end

/-- HTML void elements (serialized without a closing tag by `outerHTML`). -/
def voidTags : List String :=
  ["area", "base", "br", "col", "embed", "hr", "img", "input", "link", "meta",
   "source", "track", "wbr"]

/-- Serialize an attribute list the way `outerHTML` does. -/
def serializeAttrs (attrs : List (String × String)) : String :=
  String.join (attrs.map fun a => " " ++ a.1 ++ "=\"" ++ a.2 ++ "\"")

mutual

/-- Model of `element.outerHTML` over the model tree. -/
def serializeNode : HtmlNode → String
  | HtmlNode.text s => s
  | HtmlNode.element tag attrs children =>
    "<" ++ tag ++ serializeAttrs attrs ++ ">" ++
      (if tag ∈ voidTags then ""
       else serializeChildren children ++ "</" ++ tag ++ ">")

/-- Helper: `serializeNode` over a child list. -/
def serializeChildren : List HtmlNode → String
  | [] => ""
  | c :: cs => serializeNode c ++ serializeChildren cs

end

/-- The `index.html` branch of `updatePreview` (`part_004` lines 134-199):
compute the base path and document path from the preview root, and when the
table holds real text there, parse it (with the browser parser passed as the
`parse` parameter), inline stylesheets and scripts, and emit
`'<!DOCTYPE html>' + doc.documentElement.outerHTML`.  `none` models the later
branches (markdown / raw-code / empty fallbacks), which this branch's guard
skips. -/
def updatePreviewHtml (parse : String → HtmlNode) (fileSystem : FileSystemState)
    (previewRoot : String) : Option String :=
  let basePath :=
    if previewRoot = "/" then "/"
    else if jsEndsWith previewRoot "/" then previewRoot else previewRoot ++ "/"
  let htmlPath := basePath ++ "index.html"
  match jsGet fileSystem htmlPath with
  | some (FileContent.text indexHtml) =>
    let doc := parse indexHtml
    let doc := inlineStylesheets fileSystem htmlPath doc
    let doc := inlineScripts fileSystem htmlPath doc
    some ("<!DOCTYPE html>" ++ serializeNode doc)
  | _ => none

/-! ## Archive export/import (`src/unnamed/part_004`) -/

/-- Model of `handleDownloadProject` (`part_004` lines 642-659) as the archive member
list it feeds to the zip builder: every table entry except `/.placeholder`
housekeeping paths and non-string (placeholder) contents, under the member
name `path.substring(1)`. -/
def pack (fileSystem : FileSystemState) : List (String × String) :=
  fileSystem.filterMap fun kv =>
    if jsEndsWith kv.1 "/.placeholder" then none
    else
      match kv.2 with
      | FileContent.text content => some (jsDropFirst kv.1, content)
      | FileContent.placeholder => none

/-- JavaScript `s.trim()`. -/
def jsTrim (s : String) : String :=
  ⟨((s.data.dropWhile Char.isWhitespace).reverse.dropWhile Char.isWhitespace).reverse⟩

/-- JavaScript `s.replace(pat, rep)` for string patterns: replaces only the
first occurrence. -/
def replaceFirstAux (pat rep : List Char) : List Char → List Char
  | [] => []
  | c :: rest =>
    if pat.isPrefixOf (c :: rest) then rep ++ (c :: rest).drop pat.length
    else c :: replaceFirstAux pat rep rest

/-- JavaScript `s.replace(pat, rep)` (first occurrence only). -/
def jsReplaceFirst (s pat rep : String) : String :=
  ⟨replaceFirstAux pat.data rep.data s.data⟩

/-- The destination normalization of `handleConfirmUnpack` (`part_004` lines
588-597): trim, force a leading slash, strip a trailing slash, and map the
root `/` to the empty prefix. -/
def cleanDestination (destinationPath : String) : String :=
  let c := jsTrim destinationPath
  let c := if jsStartsWith c "/" then c else "/" ++ c
  let c := if jsEndsWith c "/" then (⟨c.data.dropLast⟩ : String) else c
  if c = "/" then "" else c

/-- The `newFileUpdates` object built by `handleConfirmUnpack` (`part_004`
lines 602-617): each decodable non-directory archive member `(relativePath,
content)` becomes the table entry
`` `${clean}/${relativePath}`.replace('//', '/') ``.  Zip member names are
unique, so the association list has unique keys. -/
def unpackUpdates (destinationPath : String) (entries : List (String × String)) :
    List (String × FileContent) :=
  let clean := cleanDestination destinationPath
  entries.map fun e =>
    (jsReplaceFirst (clean ++ "/" ++ e.1) "//" "/", FileContent.text e.2)

/-- The table written by `handleConfirmUnpack` (`part_004` line 619):
`{ ...fileSystem, ...newFileUpdates }`. -/
def handleConfirmUnpack (fileSystem : FileSystemState) (destinationPath : String)
    (entries : List (String × String)) : FileSystemState :=
  objectAssign fileSystem (unpackUpdates destinationPath entries)

/-- Model of `handleNewFile` (`part_004` lines 530-538): an existing entry at `path`
(of any content, placeholder included) is rejected with an alert and the table
is left untouched; otherwise `{ ...fileSystem, [path]: '' }` is written. -/
def handleNewFile (fileSystem : FileSystemState) (path : String) : FileSystemState :=
  if (jsGet fileSystem path).isSome then fileSystem
  else objectAssign fileSystem [(path, FileContent.text "")]

/-! ## Concrete data for the preview claim -/

/-- The claim's `index.html` document text. -/
def projIndexHtmlText : String :=
  "<html><head><link rel=stylesheet href=s.css></head><body>hi</body></html>"

/-- The DOM tree the browser parser produces for `projIndexHtmlText`. -/
def projIndexHtmlDoc : HtmlNode :=
  HtmlNode.element "html" []
    [HtmlNode.element "head" []
      [HtmlNode.element "link" [("rel", "stylesheet"), ("href", "s.css")] []],
     HtmlNode.element "body" [] [HtmlNode.text "hi"]]

/-- Models the browser `DOMParser.parseFromString(_, 'text/html')` builtin,
specified at the one document the preview claim exercises. -/
def domParse (s : String) : HtmlNode :=
  if s = projIndexHtmlText then projIndexHtmlDoc else HtmlNode.element "html" [] []

/-- The claim's table: `/proj/index.html` plus `/proj/s.css`. -/
def projFs : FileSystemState :=
  [("/proj/index.html", FileContent.text projIndexHtmlText),
   ("/proj/s.css", FileContent.text "body\x7bcolor:red\x7d")]

/-! ## Helper lemmas about the store -/

/-- A snapshot write always leaves the store well-formed: the cursor lands on
the appended snapshot, which is also the live table. -/
theorem WF_setFileSystem_snapshot (s : StoreState) (fs : FileSystemState) :
    (setFileSystem s fs true).WF := by
  unfold setFileSystem StoreState.WF
  simp only [if_pos]
  refine ⟨?_, ?_, ?_⟩
  · simp
  · simp
  · have hlen : (s.fileSystemHistory.take (s.currentHistoryIndex + 1).toNat ++ [fs]).length
        = (s.fileSystemHistory.take (s.currentHistoryIndex + 1).toNat).length + 1 := by
      simp
    simp only [List.getD_eq_getElem?_getD]
    have : ((((s.fileSystemHistory.take (s.currentHistoryIndex + 1).toNat ++ [fs]).length : Int) - 1)).toNat
        = (s.fileSystemHistory.take (s.currentHistoryIndex + 1).toNat).length := by
      rw [hlen]; omega
    rw [this, List.getElem?_concat_length]
    rfl

/-- A sequence of snapshot writes starting from a well-formed store ends
well-formed. -/
theorem WF_applyWrites (s : StoreState) (writes : List FileSystemState) (hs : s.WF) :
    (applyWrites s writes).WF := by
  induction writes generalizing s with
  | nil => exact hs
  | cons w ws ih => exact ih (setFileSystem s w true) (WF_setFileSystem_snapshot s w)

/-- Unfolding lemma: `redoTimes` commuted: peeling the last `redo` instead of the first. -/
theorem redoTimes_succ_comm (n : Nat) :
    ∀ s : StoreState, redoTimes (n + 1) s = redo (redoTimes n s) := by
  induction n with
  | zero => intro s; rfl
  | succ n ih =>
    intro s
    show redoTimes (n + 1) (redo s) = redo (redoTimes (n + 1) s)
    rw [ih (redo s)]
    rfl

/-- What a single in-range `undo` does. -/
theorem undo_of_pos (s : StoreState) (h : 0 < s.currentHistoryIndex) :
    undo s = { s with
      fileSystem := s.fileSystemHistory.getD (s.currentHistoryIndex - 1).toNat []
      currentHistoryIndex := s.currentHistoryIndex - 1 } := by
  unfold undo
  rw [if_pos h]

/-- What a single in-range `redo` does. -/
theorem redo_of_lt (s : StoreState)
    (h : s.currentHistoryIndex < (s.fileSystemHistory.length : Int) - 1) :
    redo s = { s with
      fileSystem := s.fileSystemHistory.getD (s.currentHistoryIndex + 1).toNat []
      currentHistoryIndex := s.currentHistoryIndex + 1 } := by
  unfold redo
  rw [if_pos h]

/-- Undo/redo cancellation: from any state whose live table matches the
snapshot under the cursor and whose cursor is in range, `n` `undo`s followed
by `n` `redo`s restore the whole state, provided `n` does not exceed the
cursor. -/
theorem redoTimes_undoTimes (n : Nat) :
    ∀ s : StoreState,
      s.fileSystem = s.fileSystemHistory.getD s.currentHistoryIndex.toNat [] →
      s.currentHistoryIndex < (s.fileSystemHistory.length : Int) →
      (n : Int) ≤ s.currentHistoryIndex →
      redoTimes n (undoTimes n s) = s := by
  induction n with
  | zero => intro s _ _ _; rfl
  | succ n ih =>
    intro s hfs hlen hn
    have h0 : 0 < s.currentHistoryIndex := by
      have : (0 : Int) ≤ (n : Int) := Int.ofNat_nonneg n
      omega
    have hu := undo_of_pos s h0
    show redoTimes (n + 1) (undoTimes n (undo s)) = s
    rw [redoTimes_succ_comm]
    rw [ih (undo s) (by rw [hu]) (by rw [hu]; simpa using by omega)
      (by rw [hu]; simp; omega)]
    rw [hu]
    rw [redo_of_lt _ (by simp; omega)]
    have harith : s.currentHistoryIndex - 1 + 1 = s.currentHistoryIndex := by omega
    cases s with
    | mk fileSystem fileSystemHistory currentHistoryIndex =>
      simp only [harith] at *
      simp [hfs]

/-- Unsnapshotted writes only replace the live table: history and cursor are
untouched. -/
theorem applyUnsnapshotted_frame (s : StoreState) (writes : List FileSystemState) :
    (applyUnsnapshotted s writes).fileSystemHistory = s.fileSystemHistory ∧
    (applyUnsnapshotted s writes).currentHistoryIndex = s.currentHistoryIndex := by
  induction writes generalizing s with
  | nil => exact ⟨rfl, rfl⟩
  | cons w ws ih => exact ih (setFileSystem s w false)

/-! ## Concrete tables used by the witnesses -/

/-- A concrete table. -/
def tbl0 : FileSystemState := [("/f.txt", FileContent.text "zero")]

/-- A concrete table. -/
def tbl1 : FileSystemState := [("/f.txt", FileContent.text "one")]

/-- A concrete table. -/
def tbl2 : FileSystemState := [("/f.txt", FileContent.text "two")]

/-- A concrete well-formed store: history `[tbl0]`, cursor `0`, live table
`tbl0` (the state `loadStateFromDB` produces). -/
def store0 : StoreState :=
  { fileSystem := tbl0, fileSystemHistory := [tbl0], currentHistoryIndex := 0 }

/-- A concrete store whose cursor sits strictly before the last snapshot (as
after one `undo`). -/
def storeMid : StoreState :=
  { fileSystem := tbl0, fileSystemHistory := [tbl0, tbl1], currentHistoryIndex := 0 }

/-! ## Claim theorems: snapshot history -/

/-- C1: from an initialized store (cursor on the last snapshot, live table
equal to it) and any sequence of snapshot-recording writes, `undo()` repeated
`n` times followed by `redo()` repeated `n` times — `n` at most the number of
snapshots before the cursor, with no intervening write — restores a live
table structurally equal to the one before the first `undo`. -/
theorem undo_redo_roundtrip (s : StoreState) (hs : s.WF)
    (writes : List FileSystemState) (n : Nat)
    (hn : (n : Int) ≤ (applyWrites s writes).currentHistoryIndex) :
    (redoTimes n (undoTimes n (applyWrites s writes))).fileSystem
      = (applyWrites s writes).fileSystem := by
  have hwf := WF_applyWrites s writes hs
  have hlen := hwf.2.1
  rw [redoTimes_undoTimes n _ hwf.2.2 (by omega) hn]

/-- Witness for C1: two snapshot writes on the freshly initialized store,
two undos, two redos. -/
theorem undo_redo_roundtrip_witness :
    store0.WF ∧ ((2 : Nat) : Int) ≤ (applyWrites store0 [tbl1, tbl2]).currentHistoryIndex ∧
    (redoTimes 2 (undoTimes 2 (applyWrites store0 [tbl1, tbl2]))).fileSystem
      = (applyWrites store0 [tbl1, tbl2]).fileSystem :=
  ⟨⟨by decide, by decide, by decide⟩, by decide,
    undo_redo_roundtrip store0 ⟨by decide, by decide, by decide⟩ [tbl1, tbl2] 2 (by decide)⟩

/-- C2: a snapshot write issued while the cursor sits strictly before the
last snapshot truncates every snapshot after the cursor, appends the new one,
moves the cursor to the new last index, and makes `canRedo()` false. -/
theorem snapshot_write_discards_redo (s : StoreState) (fs : FileSystemState)
    (h0 : 0 ≤ s.currentHistoryIndex)
    (h1 : s.currentHistoryIndex < (s.fileSystemHistory.length : Int) - 1) :
    (setFileSystem s fs true).fileSystemHistory
      = s.fileSystemHistory.take (s.currentHistoryIndex + 1).toNat ++ [fs] ∧
    (setFileSystem s fs true).currentHistoryIndex
      = ((setFileSystem s fs true).fileSystemHistory.length : Int) - 1 ∧
    (setFileSystem s fs true).currentHistoryIndex = s.currentHistoryIndex + 1 ∧
    canRedo (setFileSystem s fs true) = false := by
  have hwf := WF_setFileSystem_snapshot s fs
  refine ⟨rfl, hwf.2.1, ?_, ?_⟩
  · show ((s.fileSystemHistory.take (s.currentHistoryIndex + 1).toNat ++ [fs]).length : Int) - 1
      = s.currentHistoryIndex + 1
    have htake : (s.fileSystemHistory.take (s.currentHistoryIndex + 1).toNat).length
        = (s.currentHistoryIndex + 1).toNat := by
      rw [List.length_take]
      omega
    simp [htake]
    omega
  · unfold canRedo
    rw [hwf.2.1]
    simp

/-- Witness for C2: a snapshot write on a store whose cursor is one step
before the last snapshot. -/
theorem snapshot_write_discards_redo_witness :
    (0 : Int) ≤ storeMid.currentHistoryIndex ∧
    storeMid.currentHistoryIndex < (storeMid.fileSystemHistory.length : Int) - 1 ∧
    ((setFileSystem storeMid tbl2 true).fileSystemHistory
      = storeMid.fileSystemHistory.take (storeMid.currentHistoryIndex + 1).toNat ++ [tbl2] ∧
    (setFileSystem storeMid tbl2 true).currentHistoryIndex
      = ((setFileSystem storeMid tbl2 true).fileSystemHistory.length : Int) - 1 ∧
    (setFileSystem storeMid tbl2 true).currentHistoryIndex = storeMid.currentHistoryIndex + 1 ∧
    canRedo (setFileSystem storeMid tbl2 true) = false) :=
  ⟨by decide, by decide,
    snapshot_write_discards_redo storeMid tbl2 (by decide) (by decide)⟩

/-- C8: `undo()` at the first snapshot and `redo()` at the last snapshot are
observable no-ops (same live table, snapshot sequence and cursor, no error),
and `canUndo()`/`canRedo()` are true exactly when the cursor is past the
first snapshot, respectively before the last one. -/
theorem history_boundary_noops (s : StoreState) :
    (s.currentHistoryIndex = 0 → undo s = s) ∧
    (s.currentHistoryIndex = (s.fileSystemHistory.length : Int) - 1 → redo s = s) ∧
    (canUndo s = true ↔ 0 < s.currentHistoryIndex) ∧
    (canRedo s = true ↔ s.currentHistoryIndex < (s.fileSystemHistory.length : Int) - 1) := by
  refine ⟨?_, ?_, ?_, ?_⟩
  · intro h
    unfold undo
    rw [if_neg (by omega)]
  · intro h
    unfold redo
    rw [if_neg (by omega)]
  · unfold canUndo
    exact decide_eq_true_iff
  · unfold canRedo
    exact decide_eq_true_iff

/-- Witness for C8: the boundary no-ops on the freshly initialized store
(cursor both at the first and at the last snapshot). -/
theorem history_boundary_noops_witness :
    undo store0 = store0 ∧ redo store0 = store0 :=
  ⟨(history_boundary_noops store0).1 (by decide),
   (history_boundary_noops store0).2.1 (by decide)⟩

/-- C9: writes with `recordSnapshot = false` change only the live table —
snapshot sequence and cursor stay exactly as they were — so a single `undo()`
issued afterwards (cursor past the first snapshot) lands on the snapshot
before the cursor, discarding all the unsnapshotted writes at once. -/
theorem unsnapshotted_write_frame (s : StoreState) (writes : List FileSystemState)
    (h : 0 < s.currentHistoryIndex) :
    (applyUnsnapshotted s writes).fileSystemHistory = s.fileSystemHistory ∧
    (applyUnsnapshotted s writes).currentHistoryIndex = s.currentHistoryIndex ∧
    (undo (applyUnsnapshotted s writes)).fileSystem
      = s.fileSystemHistory.getD (s.currentHistoryIndex - 1).toNat [] ∧
    (undo (applyUnsnapshotted s writes)).currentHistoryIndex
      = s.currentHistoryIndex - 1 := by
  obtain ⟨hh, hi⟩ := applyUnsnapshotted_frame s writes
  refine ⟨hh, hi, ?_, ?_⟩
  · rw [undo_of_pos _ (by omega), hh, hi]
  · rw [undo_of_pos _ (by omega), hi]

/-- Witness for C9: two keystroke-style writes on a store with cursor `1`,
then one `undo`. -/
theorem unsnapshotted_write_frame_witness :
    (0 : Int) < (setFileSystem store0 tbl1 true).currentHistoryIndex ∧
    ((applyUnsnapshotted (setFileSystem store0 tbl1 true) [tbl2, tbl0]).fileSystemHistory
      = (setFileSystem store0 tbl1 true).fileSystemHistory ∧
    (applyUnsnapshotted (setFileSystem store0 tbl1 true) [tbl2, tbl0]).currentHistoryIndex
      = (setFileSystem store0 tbl1 true).currentHistoryIndex ∧
    (undo (applyUnsnapshotted (setFileSystem store0 tbl1 true) [tbl2, tbl0])).fileSystem
      = (setFileSystem store0 tbl1 true).fileSystemHistory.getD
          ((setFileSystem store0 tbl1 true).currentHistoryIndex - 1).toNat [] ∧
    (undo (applyUnsnapshotted (setFileSystem store0 tbl1 true) [tbl2, tbl0])).currentHistoryIndex
      = (setFileSystem store0 tbl1 true).currentHistoryIndex - 1) :=
  ⟨by decide,
    unsnapshotted_write_frame (setFileSystem store0 tbl1 true) [tbl2, tbl0] (by decide)⟩

/-! ## Helper lemmas about the change-set calculator -/

/-- A successful object read means the key occurs in the key list. -/
theorem jsGet_mem_keys {α : Type} (l : List (String × α)) (p : String) (v : α)
    (h : jsGet l p = some v) : p ∈ l.map Prod.fst := by
  induction l with
  | nil => simp [jsGet] at h
  | cons kv rest ih =>
    obtain ⟨k, w⟩ := kv
    simp only [jsGet] at h
    by_cases hk : k = p
    · subst hk
      simp
    · rw [if_neg hk] at h
      simp [ih h]

/-- Every record the loop body produces carries the path it was produced
for. -/
theorem changeAt_path (fileSystem initialGithubFileSystem : FileSystemState)
    (p : String) (ch : FileChange)
    (h : changeAt fileSystem initialGithubFileSystem p = some ch) : ch.path = p := by
  simp only [changeAt] at h
  split at h
  · injection h with h
    subst h
    rfl
  · split at h
    · injection h with h
      subst h
      rfl
    · split at h
      · injection h with h
        subst h
        rfl
      · exact Option.noConfusion h

/-! ## Claim theorems: change-set calculator -/

/-- C4: diffing any table against itself — placeholder entries and
`.placeholder` housekeeping names included — produces the empty change-record
list. -/
theorem diff_self_empty (T : FileSystemState) : computeChangedFiles T T = [] := by
  have h : (allPaths T T).filterMap (changeAt T T) = [] := by
    rw [List.filterMap_eq_nil_iff]
    intro p _
    simp [changeAt]
  simp [computeChangedFiles, h]

/-- Counterexample to C3: with the current table holding the unfetched
placeholder at `/f` and the baseline holding real text there, the calculator
reports `/f` as `modified` (the claim says it must never appear as modified
or deleted). -/
theorem placeholder_reported_modified_counterexample :
    computeChangedFiles [("/f", FileContent.placeholder)] [("/f", FileContent.text "hi")]
      = [⟨"/f", FileStatus.modified⟩] := by
  decide

/-- C3 as amended: a path whose current entry is the unfetched placeholder
and whose baseline entry is real text is reported by the calculator with
status `modified` — never `deleted` — because the placeholder (`null`) is a
defined value unequal to any string; it is not treated as unchanged. -/
theorem placeholder_current_vs_text_baseline
    (fileSystem initialGithubFileSystem : FileSystemState) (path s : String)
    (hc : jsGet fileSystem path = some FileContent.placeholder)
    (hb : jsGet initialGithubFileSystem path = some (FileContent.text s))
    (hnp : jsEndsWith path "/.placeholder" = false) :
    FileChange.mk path FileStatus.modified
        ∈ computeChangedFiles fileSystem initialGithubFileSystem ∧
    ¬ FileChange.mk path FileStatus.deleted
        ∈ computeChangedFiles fileSystem initialGithubFileSystem := by
  have hmem : path ∈ allPaths initialGithubFileSystem fileSystem := by
    simp only [allPaths]
    rw [List.mem_dedup]
    exact List.mem_append_left _ (jsGet_mem_keys _ _ _ hb)
  have hch : changeAt fileSystem initialGithubFileSystem path
      = some ⟨path, FileStatus.modified⟩ := by
    simp [changeAt, hc, hb]
  constructor
  · simp only [computeChangedFiles]
    apply List.mem_filter.mpr
    refine ⟨List.mem_filterMap.mpr ⟨path, hmem, hch⟩, ?_⟩
    simp [hnp]
  · intro hmem'
    simp only [computeChangedFiles] at hmem'
    have h2 := (List.mem_filter.mp hmem').1
    obtain ⟨p, _, hcp⟩ := List.mem_filterMap.mp h2
    have hp : p = path := (changeAt_path _ _ _ _ hcp).symm
    subst hp
    rw [hch] at hcp
    simp at hcp

/-- Witness for the amended C3 at the concrete pair of tables from the
counterexample. -/
theorem placeholder_current_vs_text_baseline_witness :
    jsGet [("/f", FileContent.placeholder)] "/f" = some FileContent.placeholder ∧
    jsGet [("/f", FileContent.text "hi")] "/f" = some (FileContent.text "hi") ∧
    jsEndsWith "/f" "/.placeholder" = false ∧
    (FileChange.mk "/f" FileStatus.modified
        ∈ computeChangedFiles [("/f", FileContent.placeholder)] [("/f", FileContent.text "hi")] ∧
    ¬ FileChange.mk "/f" FileStatus.deleted
        ∈ computeChangedFiles [("/f", FileContent.placeholder)] [("/f", FileContent.text "hi")]) :=
  ⟨by decide, by decide, by decide,
    placeholder_current_vs_text_baseline [("/f", FileContent.placeholder)]
      [("/f", FileContent.text "hi")] "/f" "hi" (by decide) (by decide) (by decide)⟩

/-! ## Claim theorems: path resolver and preview -/

/-- Prepending a slash yields a string starting with a slash. -/
theorem jsStartsWith_slash_append (p : String) : jsStartsWith ("/" ++ p) "/" = true := by
  have h : ("/" ++ p).data = '/' :: p.data := by
    rw [String.data_append]
    rfl
  unfold jsStartsWith
  rw [h]
  show List.isPrefixOf ['/'] ('/' :: p.data) = true
  simp [List.isPrefixOf]

/-- C6: the path resolver maps base `/a/b/index.html` with `./c.css` to
`/a/b/c.css` and with `../c.css` to `/a/c.css`; and for every base and
relative reference its result begins with `/`. -/
theorem resolvePath_relative_refs :
    resolvePath "/a/b/index.html" "./c.css" = "/a/b/c.css" ∧
    resolvePath "/a/b/index.html" "../c.css" = "/a/c.css" ∧
    ∀ base relative, jsStartsWith (resolvePath base relative) "/" = true := by
  refine ⟨by decide, by decide, ?_⟩
  intro base relative
  simp only [resolvePath]
  split <;> split <;> first
    | assumption
    | exact jsStartsWith_slash_append _

/-- C5: on the claim's table (`/proj/index.html` linking `s.css`, `/proj/s.css`
holding `body{color:red}`), the preview resolver's output contains an inline
`<style>` element whose text contains `color:red`, and contains no `<link>`
element. -/
theorem preview_inlines_stylesheet :
    (updatePreviewHtml domParse projFs "/proj").isSome = true ∧
    jsIncludes ((updatePreviewHtml domParse projFs "/proj").getD "") "<style>" = true ∧
    jsIncludes ((updatePreviewHtml domParse projFs "/proj").getD "") "color:red" = true ∧
    jsIncludes ((updatePreviewHtml domParse projFs "/proj").getD "") "<link" = false := by
  decide

/-! ## Helper lemmas about object merge (`{...a, ...b}`) -/

/-- Object read over a concatenation: the left entries win. -/
theorem jsGet_append {α : Type} (a b : List (String × α)) (p : String) :
    jsGet (a ++ b) p = if (jsGet a p).isSome then jsGet a p else jsGet b p := by
  induction a with
  | nil => simp [jsGet]
  | cons kv a ih =>
    obtain ⟨k, v⟩ := kv
    by_cases hk : k = p
    · subst hk
      simp [jsGet]
    · simp [jsGet, hk, ih]

/-- Object read through the override map of `objectAssign`. -/
theorem jsGet_map_override {α : Type} (a b : List (String × α)) (p : String) :
    jsGet (a.map fun kv => (kv.1, (jsGet b kv.1).getD kv.2)) p
      = (jsGet a p).map fun v => (jsGet b p).getD v := by
  induction a with
  | nil => simp [jsGet]
  | cons kv a ih =>
    obtain ⟨k, v⟩ := kv
    by_cases hk : k = p
    · subst hk
      simp [jsGet]
    · simp [jsGet, hk, ih]

/-- Filtering with a predicate that keeps every entry of the probed key does
not change the read. -/
theorem jsGet_filter_keep {α : Type} (b : List (String × α))
    (q : String × α → Bool) (p : String) (hq : ∀ v, q (p, v) = true) :
    jsGet (b.filter q) p = jsGet b p := by
  induction b with
  | nil => simp
  | cons kv b ih =>
    obtain ⟨k, v⟩ := kv
    by_cases hk : k = p
    · subst hk
      rw [List.filter_cons, hq v]
      simp [jsGet]
    · rw [List.filter_cons]
      cases hqv : q (k, v)
      · simpa [jsGet, hk] using ih
      · simpa [jsGet, hk] using ih

/-- Reading a spread-merged object `{...a, ...b}`: entries of `b` win,
everything else falls back to `a`. -/
theorem jsGet_objectAssign {α : Type} (a b : List (String × α)) (p : String) :
    jsGet (objectAssign a b) p
      = if (jsGet b p).isSome then jsGet b p else jsGet a p := by
  unfold objectAssign
  rw [jsGet_append, jsGet_map_override]
  cases ha : jsGet a p with
  | some v => cases hb : jsGet b p <;> simp [hb]
  | none =>
    rw [jsGet_filter_keep b _ p (by intro v; simp [ha])]
    cases hb : jsGet b p <;> simp [hb]

/-! ## Claim theorems: archive export/import -/

/-- The concrete table of the pack/unpack claim. -/
def packTable : FileSystemState :=
  [("/a.txt", FileContent.text "hi"), ("/x/.placeholder", FileContent.text "")]

/-- C7: packing `{"/a.txt": "hi", "/x/.placeholder": ""}` yields the single
archive member `("a.txt", "hi")`, and unpacking that archive at the root
yields exactly `{"/a.txt": "hi"}`; in general every archive member comes from
a non-housekeeping table entry under the member name `path` minus its leading
slash. -/
theorem pack_unpack_roundtrip :
    pack packTable = [("a.txt", "hi")] ∧
    handleConfirmUnpack [] "/" (pack packTable) = [("/a.txt", FileContent.text "hi")] ∧
    ∀ (fs : FileSystemState) (m : String × String), m ∈ pack fs →
      ∃ path s, (path, FileContent.text s) ∈ fs ∧
        jsEndsWith path "/.placeholder" = false ∧ m = (jsDropFirst path, s) := by
  refine ⟨by decide, by decide, ?_⟩
  intro fs m hm
  unfold pack at hm
  obtain ⟨kv, hkv, hf⟩ := List.mem_filterMap.mp hm
  obtain ⟨k, v⟩ := kv
  by_cases hend : jsEndsWith k "/.placeholder" = true
  · rw [if_pos hend] at hf
    exact Option.noConfusion hf
  · rw [if_neg hend] at hf
    cases v with
    | text s =>
      exact ⟨k, s, hkv, by simpa using hend, (Option.some.inj hf).symm⟩
    | placeholder => exact Option.noConfusion hf

/-- Witness for C7's general conjunct at the concrete table. -/
theorem pack_unpack_roundtrip_witness :
    ("a.txt", "hi") ∈ pack packTable ∧
    ∃ path s, (path, FileContent.text s) ∈ packTable ∧
      jsEndsWith path "/.placeholder" = false ∧
      ("a.txt", "hi") = (jsDropFirst path, s) :=
  ⟨by decide, pack_unpack_roundtrip.2.2 packTable ("a.txt", "hi") (by decide)⟩

/-- A concrete table an unpack is merged into. -/
def unpackBase : FileSystemState :=
  [("/a.txt", FileContent.text "old"), ("/keep.txt", FileContent.text "k")]

/-- C10: the table after an unpack is the previous table merged with the
unpacked entries — paths the unpack does not write keep exactly their
previous content, and an unpacked path that already exists silently
overwrites the existing content (no existence check) — whereas the
new-file operation rejects a colliding path without mutating the table. -/
theorem unpack_merges_and_overwrites
    (fileSystem : FileSystemState) (destinationPath : String)
    (entries : List (String × String)) (p : String) :
    ((jsGet (unpackUpdates destinationPath entries) p = none →
        jsGet (handleConfirmUnpack fileSystem destinationPath entries) p
          = jsGet fileSystem p) ∧
      ∀ c, jsGet (unpackUpdates destinationPath entries) p = some c →
        jsGet (handleConfirmUnpack fileSystem destinationPath entries) p = some c) ∧
    ∀ path : String, (jsGet fileSystem path).isSome = true →
      handleNewFile fileSystem path = fileSystem := by
  refine ⟨⟨?_, ?_⟩, ?_⟩
  · intro h
    unfold handleConfirmUnpack
    rw [jsGet_objectAssign, h]
    rfl
  · intro c h
    unfold handleConfirmUnpack
    rw [jsGet_objectAssign, h]
    rfl
  · intro path h
    unfold handleNewFile
    rw [if_pos h]

/-- Witness for C10: unpacking `("a.txt", "new")` at the root over a table
that already holds `/a.txt` and `/keep.txt`: the untouched path keeps its
content, the colliding path is overwritten, and `handleNewFile` on the
existing path leaves the table unchanged. -/
theorem unpack_merges_and_overwrites_witness :
    jsGet (unpackUpdates "/" [("a.txt", "new")]) "/keep.txt" = none ∧
    jsGet (handleConfirmUnpack unpackBase "/" [("a.txt", "new")]) "/keep.txt"
      = jsGet unpackBase "/keep.txt" ∧
    jsGet (unpackUpdates "/" [("a.txt", "new")]) "/a.txt"
      = some (FileContent.text "new") ∧
    jsGet (handleConfirmUnpack unpackBase "/" [("a.txt", "new")]) "/a.txt"
      = some (FileContent.text "new") ∧
    (jsGet unpackBase "/a.txt").isSome = true ∧
    handleNewFile unpackBase "/a.txt" = unpackBase :=
  ⟨by decide,
    (unpack_merges_and_overwrites unpackBase "/" [("a.txt", "new")] "/keep.txt").1.1
      (by decide),
    by decide,
    (unpack_merges_and_overwrites unpackBase "/" [("a.txt", "new")] "/a.txt").1.2
      (FileContent.text "new") (by decide),
    by decide,
    (unpack_merges_and_overwrites unpackBase "/" [("a.txt", "new")] "/a.txt").2
      "/a.txt" (by decide)⟩

end Sandbox
